import Mathlib

/-!
Verification of the file-transfer protocol implemented by src/client.py
(function send_file and the surrounding main loop) and src/server.py
(function start_server).  The Python code is shallowly embedded: strings
become List Char, byte payloads become List Nat, the blocking socket loops
become total Lean functions driven by an explicit model of the reliable
byte stream (the bytes the peer delivers before closing the connection).
Recursive loops are written with an explicit fuel argument so that every
definition reduces inside the kernel; each wrapper supplies enough fuel
for the loop to run to completion, mirroring the Python loops which
terminate because each iteration consumes input.
-/

namespace FileTransfer

/-! ## Character classes used by Python int() parsing -/

/-- Starts of the 66 runs of ten consecutive Unicode decimal digit
codepoints (category Nd) in the CPython unicodedata table (Unicode
14.0, CPython 3.11); int() maps each such codepoint to its offset
inside its run. -/
def decDigitStarts : List Nat :=
  [48, 1632, 1776, 1984, 2406, 2534, 2662, 2790, 2918, 3046, 3174, 3302,
   3430, 3558, 3664, 3792, 3872, 4160, 4240, 6112, 6160, 6470, 6608, 6784,
   6800, 6992, 7088, 7232, 7248, 42528, 43216, 43264, 43472, 43504, 43600,
   44016, 65296, 66720, 68912, 69734, 69872, 69942, 70096, 70384, 70736,
   70864, 71248, 71360, 71472, 71904, 72016, 72784, 73040, 73120, 92768,
   92864, 93008, 120782, 120792, 120802, 120812, 120822, 123200, 123632,
   125264, 130032]

/-- The decimal value Python int() assigns to a codepoint: the offset
inside its run of ten consecutive Unicode decimal digits, when the
codepoint is such a digit. -/
def natToDecimal (n : Nat) : Option Nat :=
  (decDigitStarts.find? fun lo => lo ≤ n && n ≤ lo + 9).map fun lo => n - lo

/-- Unicode decimal digit test, as accepted by Python int() parsing. -/
def isPyDigit (c : Char) : Bool := (natToDecimal c.toNat).isSome

/-- Whitespace stripped by Python int() before parsing, listed by
codepoint: its ASCII parser strips the C whitespace characters 9-13 and
32, and the preceding transform turns every non-ASCII Py_UNICODE_ISSPACE
character (NEL 133, NBSP 160, and the Unicode space characters) into a
space; ASCII codepoints below 127 pass the transform untouched, so the
0x1C-0x1F information separators are not stripped although str.isspace
holds of them. -/
def isPyWs (c : Char) : Bool :=
  decide ((9 ≤ c.toNat ∧ c.toNat ≤ 13) ∨ c.toNat = 32
    ∨ c.toNat = 133 ∨ c.toNat = 160 ∨ c.toNat = 5760
    ∨ (8192 ≤ c.toNat ∧ c.toNat ≤ 8202) ∨ c.toNat = 8232 ∨ c.toNat = 8233
    ∨ c.toNat = 8239 ∨ c.toNat = 8287 ∨ c.toNat = 12288)

/-- The ASCII decimal digit character for a value below ten. -/
def digitChar : Nat → Char
  | 0 => '0' | 1 => '1' | 2 => '2' | 3 => '3' | 4 => '4'
  | 5 => '5' | 6 => '6' | 7 => '7' | 8 => '8' | _ => '9'

/-- Numeric value of a digit character under Python int(). -/
def digitVal (c : Char) : Nat := (natToDecimal c.toNat).getD 0

/-! ## Python str.split(sep) on character lists -/

/-- Does the pattern occur at the head of the list? -/
def matchesAt : List Char → List Char → Bool
  | [], _ => true
  | _ :: _, [] => false
  | p :: ps, c :: cs => p = c && matchesAt ps cs

/-- First occurrence of sep in s: the text before it and the text after it. -/
def splitFirst (sep : List Char) (s : List Char) : Option (List Char × List Char) :=
  match s with
  | [] => none
  | c :: rest =>
    if matchesAt sep s then some ([], s.drop sep.length)
    else
      match splitFirst sep rest with
      | none => none
      | some (pre, post) => some (c :: pre, post)

/-- Fueled version of Python s.split(sep): split at every non-overlapping
occurrence of sep, scanning left to right.  Any fuel at least s.length is
enough because each found occurrence consumes at least one character. -/
def pySplitF (sep : List Char) : Nat → List Char → List (List Char)
  | 0, s => [s]
  | fuel + 1, s =>
    match splitFirst sep s with
    | none => [s]
    | some (pre, post) => pre :: pySplitF sep fuel post

/-- Python s.split(sep) for a non-empty separator. -/
def pySplit (sep s : List Char) : List (List Char) := pySplitF sep s.length s

/-- Fueled count of non-overlapping occurrences of sep in s. -/
def countOccsF (sep : List Char) : Nat → List Char → Nat
  | 0, _ => 0
  | fuel + 1, s =>
    match splitFirst sep s with
    | none => 0
    | some (_, post) => countOccsF sep fuel post + 1

/-- Number of non-overlapping occurrences of sep in s. -/
def countOccs (sep s : List Char) : Nat := countOccsF sep s.length s

/-! ## Python int(s) on character lists -/

/-- Strip leading and trailing whitespace, as Python int() does. -/
def stripWs (s : List Char) : List Char :=
  ((s.dropWhile isPyWs).reverse.dropWhile isPyWs).reverse

/-- Continuation of a digit run: digits, with single underscores allowed
only between digits (Python numeric-literal grouping). -/
def digTail : List Char → Bool
  | [] => true
  | c :: rest =>
    if c = '_' then
      match rest with
      | [] => false
      | d :: rest2 => isPyDigit d && digTail rest2
    else isPyDigit c && digTail rest

/-- A valid unsigned digit run for Python int(): non-empty, starts with a
digit, underscores only between digits. -/
def digRun : List Char → Bool
  | [] => false
  | c :: rest => isPyDigit c && digTail rest

/-- Value of a digit run, skipping underscore group separators. -/
def natVal (s : List Char) : Nat :=
  s.foldl (fun acc c => if c = '_' then acc else acc * 10 + digitVal c) 0

/-- Python int(s): optional surrounding whitespace, optional single
ASCII sign, then a digit run.  CPython first rewrites every Unicode
decimal digit to its value and every Py_UNICODE_ISSPACE character to a
space, then parses in ASCII; reading the digits through natToDecimal
and the whitespace through isPyWs models exactly that.  Returns none
where Python raises ValueError. -/
def pyInt (s : List Char) : Option Int :=
  match stripWs s with
  | [] => none
  | c :: rest =>
    if c = '+' then (if digRun rest then some ((natVal rest : Int)) else none)
    else if c = '-' then (if digRun rest then some (-(natVal rest : Int)) else none)
    else if digRun (c :: rest) then some ((natVal (c :: rest) : Int)) else none

/-! ## os.path.basename (POSIX) on character lists -/

/-- Accumulating scan for the text after the last slash. -/
def lastPartAux (acc : List Char) : List Char → List Char
  | [] => acc
  | c :: rest => if c = '/' then lastPartAux [] rest else lastPartAux (acc ++ [c]) rest

/-- os.path.basename on a POSIX host: the part of the path after the last
slash (the platform the repository is deployed on; its path separator is
the slash character). -/
def pyBasename (s : List Char) : List Char := lastPartAux [] s

/-! ## Decimal rendering of a natural number (Python str(n) for n : Nat) -/

/-- Fueled decimal digits of n, most significant first.  Fuel above n is
always enough since the recursion divides by ten. -/
def natDigitsF : Nat → Nat → List Char
  | 0, _ => []
  | fuel + 1, n =>
    if n < 10 then [digitChar n] else natDigitsF fuel (n / 10) ++ [digitChar (n % 10)]

/-- Decimal digit string of a natural number. -/
def natDigits (n : Nat) : List Char := natDigitsF (n + 1) n

/-! ## Shared protocol constants (src/client.py lines 21-24, src/server.py lines 22-25) -/

/-- Chunk size used by both loops (BUFFER_SIZE = 1024 in both files). -/
def BUFFER_SIZE : Nat := 1024

/-- The metadata delimiter placed between filename and filesize. -/
def SEPARATOR : List Char := ['<', 'S', 'E', 'P', 'A', 'R', 'A', 'T', 'O', 'R', '>']

/-- Handshake token the server sends after accepting a header. -/
def READY : List Char := ['R', 'E', 'A', 'D', 'Y']

/-- Confirmation token for a complete transfer. -/
def SUCCESS : List Char := ['S', 'U', 'C', 'C', 'E', 'S', 'S']

/-- Confirmation token for an incomplete transfer. -/
def FAILED : List Char := ['F', 'A', 'I', 'L', 'E', 'D']

/-! ## Receiver model (src/server.py, per-connection body of start_server) -/

/-- Header parsing, src/server.py lines 70-74:
filename, filesize = received_data.split(SEPARATOR) raises ValueError
unless the split yields exactly two fields; then the filename is reduced
to its basename and the size field goes through int(). -/
def decodeHeader (s : List Char) : Option (List Char × Int) :=
  match pySplit SEPARATOR s with
  | [a, b] =>
    match pyInt b with
    | some k => some (pyBasename a, k)
    | none => none
  | _ => none

/-- Fueled body-read loop, src/server.py lines 88-106: while
bytes_received < filesize, recv(min(BUFFER_SIZE, bytes_remaining)),
break on an empty read, append the chunk to the output file.  The
reliable stream is modelled as the list of payload bytes the peer
delivers before closing; recv returns the next at most req of them and
an empty read once they are exhausted.  Fuel above the length of data is
always enough because every non-breaking iteration consumes at least one
delivered byte. -/
def recvLoopF (fileSize : Int) : Nat → Nat → List Nat → List Nat → Nat × List Nat
  | 0, bytesReceived, _, acc => (bytesReceived, acc)
  | fuel + 1, bytesReceived, data, acc =>
    if (bytesReceived : Int) < fileSize then
      let req := min BUFFER_SIZE (fileSize - (bytesReceived : Int)).toNat
      let chunk := data.take req
      if chunk = [] then (bytesReceived, acc)
      else recvLoopF fileSize fuel (bytesReceived + chunk.length) (data.drop req) (acc ++ chunk)
    else (bytesReceived, acc)

/-- The body-read loop started at zero received bytes and an empty file. -/
def recvLoop (fileSize : Int) (data : List Nat) : Nat × List Nat :=
  recvLoopF fileSize (data.length + 1) 0 data []

/-- Observable outcome of one accepted connection on the server. -/
structure ServerOutcome where
  sentReady : Bool
  savedName : Option (List Char)
  written : List Nat
  bytesReceived : Nat
  reply : Option (List Char)

/-- One accepted connection of start_server, src/server.py lines 57-128:
an empty header read closes the connection silently; a header that fails
to parse raises ValueError before READY is sent, so the connection is
closed with no reply; otherwise READY is sent, the output file named by
the stripped basename is opened (truncating), the body loop runs against
the delivered bytes, and SUCCESS or FAILED is sent according to whether
bytes_received equals filesize.  The file is closed but never deleted on
either outcome. -/
def serverSession (header : List Char) (body : List Nat) : ServerOutcome :=
  if header = [] then ⟨false, none, [], 0, none⟩
  else
    match decodeHeader header with
    | none => ⟨false, none, [], 0, none⟩
    | some (name, size) =>
      let r := recvLoop size body
      ⟨true, some name, r.2, r.1, some (if (r.1 : Int) = size then SUCCESS else FAILED)⟩

/-! ## Sender model (src/client.py) -/

/-- Observable actions of the client, in order: the socket connect, each
socket send (header or payload chunk), each socket recv, the local open
of the file for streaming, and the final close performed by the finally
block. -/
inductive Event where
  | connect
  | sendHeader (h : List Char)
  | recvMsg
  | openLocal
  | sendChunk (c : List Nat)
  | close
deriving DecidableEq, BEq

/-- Environment a run of send_file executes against: whether the connect
succeeds, the byte content of the local file (none models the file
becoming unreadable, raising at os.path.getsize), the decoded handshake
response, the decoded confirmation, and an optional chunk index at which
a mid-transfer I/O exception is raised. -/
structure ClientEnv where
  connectOk : Bool
  fileBytes : Option (List Nat)
  response : List Char
  confirmation : List Char
  ioFailAt : Option Nat

/-- Fueled chunking: the successive results of file.read(c) until the
read comes back empty.  Fuel at least l.length is enough for any
positive c. -/
def chunksOfF (c : Nat) : Nat → List Nat → List (List Nat)
  | 0, _ => []
  | _ + 1, [] => []
  | fuel + 1, x :: rest => (x :: rest).take c :: chunksOfF c fuel ((x :: rest).drop c)

/-- The chunks file.read(BUFFER_SIZE) produces over the whole file. -/
def chunksOf (c : Nat) (l : List Nat) : List (List Nat) := chunksOfF c l.length l

/-- The header string built at src/client.py line 58:
f-string filename SEPARATOR filesize, with filename the basename of the
path and filesize the byte length of the file. -/
def clientHeader (filepath : List Char) (n : Nat) : List Char :=
  pyBasename filepath ++ SEPARATOR ++ natDigits n

/-- send_file, src/client.py lines 27-119.  Every exceptional branch is
one of the except clauses, which all return False; the finally block
closes the socket on every path, so every trace ends with Event.close.
The chunk loop sends chunksOf BUFFER_SIZE over the file bytes; a
mid-transfer I/O failure at chunk index k stops the loop there and is
caught by the generic except clause. -/
def send_file (filepath : List Char) (env : ClientEnv) : Bool × List Event :=
  if env.connectOk = false then (false, [Event.connect, Event.close])
  else
    match env.fileBytes with
    | none => (false, [Event.connect, Event.close])
    | some bytes =>
      let header := clientHeader filepath bytes.length
      if env.response ≠ READY then
        (false, [Event.connect, Event.sendHeader header, Event.recvMsg, Event.close])
      else
        let chunks := chunksOf BUFFER_SIZE bytes
        match env.ioFailAt with
        | some k =>
          if k < chunks.length then
            (false, [Event.connect, Event.sendHeader header, Event.recvMsg, Event.openLocal]
              ++ (chunks.take k).map Event.sendChunk ++ [Event.close])
          else
            (if env.confirmation = SUCCESS then true else false,
              [Event.connect, Event.sendHeader header, Event.recvMsg, Event.openLocal]
                ++ chunks.map Event.sendChunk ++ [Event.recvMsg, Event.close])
        | none =>
          (if env.confirmation = SUCCESS then true else false,
            [Event.connect, Event.sendHeader header, Event.recvMsg, Event.openLocal]
              ++ chunks.map Event.sendChunk ++ [Event.recvMsg, Event.close])

/-- The payload chunks a trace writes to the socket, in order. -/
def payloadOf (tr : List Event) : List (List Nat) :=
  tr.filterMap fun e =>
    match e with
    | Event.sendChunk c => some c
    | _ => none

/-- Whether the trace opened the local file for streaming. -/
def openedLocal (tr : List Event) : Bool := tr.contains Event.openLocal

/-- The checks main() performs on a path before calling send_file,
src/client.py lines 153-163: os.path.isfile and os.access(..., R_OK). -/
structure FileSys where
  isRegularFile : List Char → Bool
  readOK : List Char → Bool

/-- One iteration of the main() prompt loop for a non-quit path,
src/client.py lines 135-175: a path failing either file check is
reported to the user and the loop continues with no transfer attempted
(empty event trace, no success); otherwise send_file runs. -/
def clientMainStep (fs : FileSys) (env : ClientEnv) (filepath : List Char) : Bool × List Event :=
  if fs.isRegularFile filepath = false then (false, [])
  else if fs.readOK filepath = false then (false, [])
  else send_file filepath env

/-- The environment of a fully cooperative run: connect succeeds, the
file holds the given bytes, the server answers READY then SUCCESS, and
no I/O error occurs. -/
def happyEnv (content : List Nat) : ClientEnv :=
  ⟨true, some content, READY, SUCCESS, none⟩

/-- Modelled from the spec: a valid non-negative decimal integer, the
wording of the header-decoding sentence (spec section 4.1): a non-empty
string of plain decimal digits.  Used only to compare the specified
acceptance condition with what the code accepts. -/
def specNonNegDecimal (s : List Char) : Bool :=
  !s.isEmpty && s.all fun c => 48 ≤ c.toNat && c.toNat ≤ 57

/-! ## Helper lemmas: splitting -/

lemma matchesAt_self_append (p s : List Char) : matchesAt p (p ++ s) = true := by
  induction p with
  | nil => rfl
  | cons c cs ih => simp [matchesAt, ih]

lemma splitFirst_none_of_no_lt (s : List Char) (h : '<' ∉ s) :
    splitFirst SEPARATOR s = none := by
  induction s with
  | nil => rfl
  | cons c rest ih =>
    have hc : ('<' : Char) ≠ c := fun hq => h (hq ▸ List.mem_cons_self c rest)
    have hm : matchesAt SEPARATOR (c :: rest) = false := by
      show (decide (('<' : Char) = c) && matchesAt _ rest) = false
      simp [hc]
    have hrest : '<' ∉ rest := fun hq => h (List.mem_cons_of_mem c hq)
    simp [splitFirst, hm, ih hrest]

lemma splitFirst_boundary (a b : List Char) (ha : '<' ∉ a) :
    splitFirst SEPARATOR (a ++ SEPARATOR ++ b) = some (a, b) := by
  induction a with
  | nil =>
    have hm : matchesAt SEPARATOR (SEPARATOR ++ b) = true := matchesAt_self_append _ _
    have hcons : ∃ c rest, SEPARATOR ++ b = c :: rest := ⟨'<', _, rfl⟩
    obtain ⟨c, rest, hcr⟩ := hcons
    simp only [List.nil_append] at *
    rw [splitFirst.eq_def]
    rw [hcr] at hm ⊢
    simp only [hm, if_true]
    rw [← hcr, List.drop_left]
  | cons c a' ih =>
    have hc : ('<' : Char) ≠ c := fun hq => ha (hq ▸ List.mem_cons_self c a')
    have hm : matchesAt SEPARATOR (c :: (a' ++ SEPARATOR ++ b)) = false := by
      show (decide (('<' : Char) = c) && matchesAt _ _) = false
      simp [hc]
    have ha' : '<' ∉ a' := fun hq => ha (List.mem_cons_of_mem c hq)
    have : (c :: a') ++ SEPARATOR ++ b = c :: (a' ++ SEPARATOR ++ b) := by simp
    rw [this, splitFirst.eq_def]
    simp only [hm, Bool.false_eq_true, if_false]
    rw [ih ha']

lemma pySplitF_of_none (sep : List Char) (fuel : Nat) (s : List Char)
    (h : splitFirst sep s = none) : pySplitF sep fuel s = [s] := by
  cases fuel with
  | zero => rfl
  | succ f => simp [pySplitF, h]

lemma pySplitF_boundary (fuel : Nat) (a b : List Char) (hf : 1 ≤ fuel)
    (ha : '<' ∉ a) (hb : '<' ∉ b) :
    pySplitF SEPARATOR fuel (a ++ SEPARATOR ++ b) = [a, b] := by
  cases fuel with
  | zero => omega
  | succ f =>
    simp only [pySplitF, splitFirst_boundary a b ha]
    rw [pySplitF_of_none _ _ _ (splitFirst_none_of_no_lt b hb)]

lemma pySplit_boundary (a b : List Char) (ha : '<' ∉ a) (hb : '<' ∉ b) :
    pySplit SEPARATOR (a ++ SEPARATOR ++ b) = [a, b] := by
  apply pySplitF_boundary _ a b _ ha hb
  simp only [List.length_append, SEPARATOR, List.length_cons, List.length_nil]
  omega

lemma pySplitF_length_eq (sep : List Char) (fuel : Nat) :
    ∀ s, (pySplitF sep fuel s).length = countOccsF sep fuel s + 1 := by
  induction fuel with
  | zero => intro s; rfl
  | succ f ih =>
    intro s
    simp only [pySplitF, countOccsF]
    cases h : splitFirst sep s with
    | none => rfl
    | some pr => simp [ih pr.2]

lemma pySplit_length_eq (sep s : List Char) :
    (pySplit sep s).length = countOccs sep s + 1 :=
  pySplitF_length_eq sep s.length s

/-! ## Helper lemmas: decimal digits and Python int -/

lemma isPyDigit_digitChar (d : Nat) : isPyDigit (digitChar d) = true := by
  unfold digitChar
  split <;> decide

lemma digitChar_ne_underscore (d : Nat) : digitChar d ≠ '_' := by
  unfold digitChar
  split <;> decide

lemma digitVal_digitChar (d : Nat) (h : d < 10) : digitVal (digitChar d) = d := by
  interval_cases d <;> decide

lemma natDigitsF_all_digits : ∀ fuel n, n < fuel →
    ∀ c ∈ natDigitsF fuel n, isPyDigit c = true := by
  intro fuel
  induction fuel with
  | zero => intro n hn; omega
  | succ f ih =>
    intro n hn c hc
    by_cases h10 : n < 10
    · simp only [natDigitsF, h10, if_true, List.mem_singleton] at hc
      exact hc ▸ isPyDigit_digitChar n
    · simp only [natDigitsF, h10, if_false, List.mem_append, List.mem_singleton] at hc
      rcases hc with hc | hc
      · exact ih (n / 10) (by omega) c hc
      · exact hc ▸ isPyDigit_digitChar (n % 10)

lemma natDigitsF_ne_nil : ∀ fuel n, n < fuel → natDigitsF fuel n ≠ [] := by
  intro fuel n hn
  cases fuel with
  | zero => omega
  | succ f =>
    rw [natDigitsF]
    by_cases h10 : n < 10
    · simp [h10]
    · simp [h10]

lemma natVal_append (l : List Char) (c : Char) :
    natVal (l ++ [c]) = if c = '_' then natVal l else natVal l * 10 + digitVal c := by
  simp [natVal, List.foldl_append]

lemma natVal_natDigitsF : ∀ fuel n, n < fuel → natVal (natDigitsF fuel n) = n := by
  intro fuel
  induction fuel with
  | zero => intro n hn; omega
  | succ f ih =>
    intro n hn
    by_cases h10 : n < 10
    · have : natVal [digitChar n] = digitVal (digitChar n) := by
        simp [natVal, digitChar_ne_underscore n]
      simp only [natDigitsF, h10, if_true, this]
      exact digitVal_digitChar n h10
    · have hdiv : n / 10 < f := by
        have := Nat.div_lt_self (by omega : 0 < n) (by omega : 1 < 10)
        omega
      simp only [natDigitsF, h10, if_false, natVal_append,
        digitChar_ne_underscore (n % 10), if_false]
      rw [ih (n / 10) hdiv, digitVal_digitChar (n % 10) (Nat.mod_lt n (by omega))]
      omega

lemma digTail_all_digits (l : List Char) (h : ∀ c ∈ l, isPyDigit c = true) :
    digTail l = true := by
  induction l with
  | nil => rfl
  | cons c rest ih =>
    have hc : isPyDigit c = true := h c (List.mem_cons_self c rest)
    have hcu : c ≠ '_' := by
      intro hq
      rw [hq] at hc
      exact absurd hc (by decide)
    have hrest : digTail rest = true :=
      ih fun d hd => h d (List.mem_cons_of_mem c hd)
    rw [digTail.eq_def]
    simp only [hcu, if_false]
    simp [hc, hrest]

lemma digRun_all_digits (l : List Char) (hne : l ≠ [])
    (h : ∀ c ∈ l, isPyDigit c = true) : digRun l = true := by
  cases l with
  | nil => exact absurd rfl hne
  | cons c rest =>
    have hc := h c (List.mem_cons_self c rest)
    have ht := digTail_all_digits rest fun d hd => h d (List.mem_cons_of_mem c hd)
    simp [digRun, hc, ht]

lemma isPyWs_digitChar (d : Nat) : isPyWs (digitChar d) = false := by
  unfold digitChar
  split <;> decide

lemma natDigitsF_all_not_ws : ∀ fuel n, n < fuel →
    ∀ c ∈ natDigitsF fuel n, isPyWs c = false := by
  intro fuel
  induction fuel with
  | zero => intro n hn; omega
  | succ f ih =>
    intro n hn c hc
    by_cases h10 : n < 10
    · simp only [natDigitsF, h10, if_true, List.mem_singleton] at hc
      exact hc ▸ isPyWs_digitChar n
    · simp only [natDigitsF, h10, if_false, List.mem_append, List.mem_singleton] at hc
      rcases hc with hc | hc
      · exact ih (n / 10) (by omega) c hc
      · exact hc ▸ isPyWs_digitChar (n % 10)

lemma dropWhile_of_all_false {p : Char → Bool} (l : List Char)
    (h : ∀ c ∈ l, p c = false) : l.dropWhile p = l := by
  cases l with
  | nil => rfl
  | cons c rest =>
    have hc : ¬ p c = true := by
      rw [h c (List.mem_cons_self c rest)]
      exact Bool.false_ne_true
    exact List.dropWhile_cons_of_neg hc

lemma stripWs_of_no_ws (l : List Char) (h : ∀ c ∈ l, isPyWs c = false) :
    stripWs l = l := by
  unfold stripWs
  rw [dropWhile_of_all_false l h]
  rw [dropWhile_of_all_false l.reverse (fun c hc => h c (List.mem_reverse.mp hc))]
  exact List.reverse_reverse l

lemma pyInt_natDigits (n : Nat) : pyInt (natDigits n) = some (n : Int) := by
  have hall : ∀ c ∈ natDigits n, isPyDigit c = true :=
    natDigitsF_all_digits (n + 1) n (Nat.lt_succ_self n)
  have hne : natDigits n ≠ [] := natDigitsF_ne_nil (n + 1) n (Nat.lt_succ_self n)
  have hstrip : stripWs (natDigits n) = natDigits n :=
    stripWs_of_no_ws _ (natDigitsF_all_not_ws (n + 1) n (Nat.lt_succ_self n))
  have hval : natVal (natDigits n) = n := natVal_natDigitsF (n + 1) n (Nat.lt_succ_self n)
  obtain ⟨c, rest, hcr⟩ := List.exists_cons_of_ne_nil hne
  have hc : isPyDigit c = true := hall c (by rw [hcr]; exact List.mem_cons_self c rest)
  have hcp : c ≠ '+' := by
    intro hq; rw [hq] at hc; exact absurd hc (by decide)
  have hcm : c ≠ '-' := by
    intro hq; rw [hq] at hc; exact absurd hc (by decide)
  have hrun : digRun (c :: rest) = true := by
    rw [← hcr]; exact digRun_all_digits _ hne hall
  unfold pyInt
  rw [hstrip, hcr]
  simp only [hcp, if_false, hcm, hrun, if_true]
  rw [← hcr, hval]

/-! ## Helper lemmas: basename -/

lemma lastPartAux_no_slash_mem (l : List Char) :
    ∀ acc, '/' ∉ acc → '/' ∉ lastPartAux acc l := by
  induction l with
  | nil => intro acc hacc; exact hacc
  | cons c rest ih =>
    intro acc hacc
    by_cases hc : c = '/'
    · simp only [lastPartAux, hc, if_true]
      exact ih [] (List.not_mem_nil '/')
    · simp only [lastPartAux, hc, if_false]
      apply ih
      intro hq
      rcases List.mem_append.mp hq with hq | hq
      · exact hacc hq
      · exact hc (List.mem_singleton.mp hq).symm

lemma slash_not_mem_pyBasename (s : List Char) : '/' ∉ pyBasename s :=
  lastPartAux_no_slash_mem s [] (List.not_mem_nil '/')

lemma lastPartAux_no_slash_id (l : List Char) (h : '/' ∉ l) :
    ∀ acc, lastPartAux acc l = acc ++ l := by
  induction l with
  | nil => intro acc; simp [lastPartAux]
  | cons c rest ih =>
    intro acc
    have hc : c ≠ '/' := fun hq => h (hq ▸ List.mem_cons_self c rest)
    have hrest : '/' ∉ rest := fun hq => h (List.mem_cons_of_mem c hq)
    simp only [lastPartAux, hc, if_false]
    rw [ih hrest]
    simp

lemma pyBasename_of_no_slash (l : List Char) (h : '/' ∉ l) : pyBasename l = l := by
  unfold pyBasename
  rw [lastPartAux_no_slash_id l h []]
  rfl

lemma pyBasename_pyBasename (s : List Char) :
    pyBasename (pyBasename s) = pyBasename s :=
  pyBasename_of_no_slash _ (slash_not_mem_pyBasename s)

/-! ## Helper lemmas: the decoded header -/

lemma natDigits_no_lt (n : Nat) : '<' ∉ natDigits n := by
  intro hq
  have := natDigitsF_all_digits (n + 1) n (Nat.lt_succ_self n) '<' hq
  exact absurd this (by decide)

lemma decodeHeader_boundary (a b : List Char) (k : Int)
    (ha : '<' ∉ a) (hb : '<' ∉ b) (hk : pyInt b = some k) :
    decodeHeader (a ++ SEPARATOR ++ b) = some (pyBasename a, k) := by
  unfold decodeHeader
  rw [pySplit_boundary a b ha hb]
  simp [hk]

lemma header_ne_nil (a b : List Char) : a ++ SEPARATOR ++ b ≠ [] := by
  simp [SEPARATOR]

/-! ## Helper lemmas: the body-read loop -/

lemma recvLoopF_spec (size : Int) :
    ∀ fuel (br : Nat) (data acc : List Nat), data.length < fuel → (br : Int) ≤ size →
    recvLoopF size fuel br data acc
      = (br + min data.length (size - (br : Int)).toNat,
         acc ++ data.take (size - (br : Int)).toNat) := by
  intro fuel
  induction fuel with
  | zero => intro br data acc hlt _; omega
  | succ f ih =>
    intro br data acc hlt hbr
    rw [recvLoopF]
    by_cases hcond : (br : Int) < size
    · have hR1 : 1 ≤ (size - (br : Int)).toNat := by omega
      set R := (size - (br : Int)).toNat with hR
      set req := min BUFFER_SIZE R with hreq
      have hreq1 : 1 ≤ req := by
        rw [hreq]; unfold BUFFER_SIZE; omega
      have hreqR : req ≤ R := min_le_right _ _
      cases data with
      | nil =>
        simp only [hcond, if_true, List.take_nil]
        simp
      | cons x d =>
        have hchunk : (x :: d).take req ≠ [] := by
          intro hq
          rw [List.take_eq_nil_iff] at hq
          rcases hq with hq | hq
          · omega
          · exact List.cons_ne_nil x d hq
        simp only [hcond, if_true]
        rw [if_neg hchunk]
        set L := (x :: d).length with hL
        have hL1 : 1 ≤ L := by rw [hL]; simp
        have hCL : ((x :: d).take req).length = min req L := by
          rw [List.length_take]
        have hdroplen : ((x :: d).drop req).length = L - req := by
          rw [List.length_drop]
        have hbr' : ((br + ((x :: d).take req).length : Nat) : Int) ≤ size := by
          rw [hCL]
          have : min req L ≤ R := le_trans (min_le_left _ _) hreqR
          push_cast
          omega
        have hfuel' : ((x :: d).drop req).length < f := by
          rw [hdroplen]
          omega
        rw [ih _ _ _ hfuel' hbr']
        have hRrec : (size - ((br + ((x :: d).take req).length : Nat) : Int)).toNat
            = R - min req L := by
          rw [hCL]
          have : min req L ≤ R := le_trans (min_le_left _ _) hreqR
          push_cast
          omega
        rw [hRrec, Prod.mk.injEq]
        constructor
        · rw [hCL, hdroplen]
          by_cases hcase : req ≤ L
          · have : min req L = req := min_eq_left hcase
            omega
          · have hLreq : L < req := by omega
            have : min req L = L := min_eq_right (le_of_lt hLreq)
            have hLR : L < R := by omega
            omega
        · by_cases hcase : req ≤ L
          · have hmin : min req L = req := min_eq_left hcase
            rw [hmin, List.append_assoc]
            congr 1
            have hsum : req + (R - req) = R := by omega
            calc (x :: d).take req ++ ((x :: d).drop req).take (R - req)
                = (x :: d).take (req + (R - req)) := (List.take_add _ _ _).symm
              _ = (x :: d).take R := by rw [hsum]
          · have hLreq : L < req := by omega
            have hmin : min req L = L := min_eq_right (le_of_lt hLreq)
            rw [hmin]
            have htake : (x :: d).take req = x :: d :=
              List.take_of_length_le (by omega)
            have hdrop : (x :: d).drop req = [] :=
              List.drop_eq_nil_of_le (by omega)
            have htakeR : (x :: d).take R = x :: d :=
              List.take_of_length_le (by omega)
            rw [htake, hdrop, htakeR, List.take_nil, List.append_nil]
    · have hbrsize : (br : Int) = size := le_antisymm hbr (not_lt.mp hcond)
      have hR0 : (size - (br : Int)).toNat = 0 := by omega
      simp only [hcond, if_false, hR0, List.take_zero, List.append_nil]
      simp

lemma recvLoop_spec (size : Int) (hsize : 0 ≤ size) (data : List Nat) :
    recvLoop size data = (min data.length size.toNat, data.take size.toNat) := by
  unfold recvLoop
  rw [recvLoopF_spec size (data.length + 1) 0 data [] (by omega) (by omega)]
  simp

/-! ## Helper lemmas: the sender's chunk loop -/

lemma chunksOfF_flatten (c : Nat) (hc : 0 < c) :
    ∀ fuel (l : List Nat), l.length ≤ fuel → (chunksOfF c fuel l).flatten = l := by
  intro fuel
  induction fuel with
  | zero =>
    intro l hl
    have : l = [] := List.length_eq_zero.mp (by omega)
    subst this; rfl
  | succ f ih =>
    intro l hl
    cases l with
    | nil => rfl
    | cons x rest =>
      rw [chunksOfF]
      rw [List.flatten_cons]
      rw [ih ((x :: rest).drop c) (by rw [List.length_drop]; simp at hl ⊢; omega)]
      exact List.take_append_drop c (x :: rest)

lemma chunksOf_flatten (c : Nat) (hc : 0 < c) (l : List Nat) :
    (chunksOf c l).flatten = l :=
  chunksOfF_flatten c hc l.length l (le_refl _)

lemma chunksOfF_mem_length (c : Nat) :
    ∀ fuel (l : List Nat), ∀ ch ∈ chunksOfF c fuel l, ch.length ≤ c := by
  intro fuel
  induction fuel with
  | zero => intro l ch hch; exact absurd hch (List.not_mem_nil ch)
  | succ f ih =>
    intro l ch hch
    cases l with
    | nil => exact absurd hch (List.not_mem_nil ch)
    | cons x rest =>
      rw [chunksOfF] at hch
      rcases List.mem_cons.mp hch with hch | hch
      · rw [hch, List.length_take]; exact min_le_left _ _
      · exact ih _ ch hch

lemma chunksOfF_length_eq :
    ∀ fuel (l : List Nat), l.length ≤ fuel →
    (chunksOfF BUFFER_SIZE fuel l).length = (l.length + (BUFFER_SIZE - 1)) / BUFFER_SIZE := by
  intro fuel
  induction fuel with
  | zero =>
    intro l hl
    have : l = [] := List.length_eq_zero.mp (by omega)
    subst this
    decide
  | succ f ih =>
    intro l hl
    cases l with
    | nil =>
      rw [chunksOfF]
      decide
    | cons x rest =>
      rw [chunksOfF, List.length_cons]
      rw [ih ((x :: rest).drop BUFFER_SIZE)
        (by rw [List.length_drop]; simp at hl ⊢; unfold BUFFER_SIZE; omega)]
      rw [List.length_drop]
      set L := (x :: rest).length with hL
      have hL1 : 1 ≤ L := by rw [hL]; simp
      unfold BUFFER_SIZE
      omega

lemma getLastD_irrel (t : List (List Nat)) (h : t ≠ []) (d d' : List Nat) :
    t.getLastD d = t.getLastD d' := by
  cases t with
  | nil => exact absurd rfl h
  | cons a rest => rw [List.getLastD_cons, List.getLastD_cons]

lemma chunksOfF_ne_nil (c : Nat) (fuel : Nat) (x : Nat) (rest : List Nat) :
    chunksOfF c (fuel + 1) (x :: rest) ≠ [] := by
  rw [chunksOfF]
  exact List.cons_ne_nil _ _

lemma chunksOfF_last :
    ∀ fuel (l : List Nat), l ≠ [] → l.length ≤ fuel →
    ((chunksOfF BUFFER_SIZE fuel l).getLastD []).length
      = if l.length % BUFFER_SIZE = 0 then BUFFER_SIZE else l.length % BUFFER_SIZE := by
  intro fuel
  induction fuel with
  | zero =>
    intro l hne hl
    exact absurd (List.length_eq_zero.mp (by omega)) hne
  | succ f ih =>
    intro l hne hl
    cases l with
    | nil => exact absurd rfl hne
    | cons x rest =>
      rw [chunksOfF]
      set L := (x :: rest).length with hL
      have hL1 : 1 ≤ L := by rw [hL]; simp
      by_cases hcase : L ≤ BUFFER_SIZE
      · have hdrop : (x :: rest).drop BUFFER_SIZE = [] :=
          List.drop_eq_nil_of_le (by omega)
        have hrec : chunksOfF BUFFER_SIZE f ((x :: rest).drop BUFFER_SIZE) = [] := by
          rw [hdrop]
          cases f <;> rfl
        rw [hrec, List.getLastD_cons, List.getLastD_nil, List.length_take]
        have hmin : min BUFFER_SIZE L = L := min_eq_right hcase
        rw [← hL, hmin]
        unfold BUFFER_SIZE at *
        split <;> omega
      · have hLgt : BUFFER_SIZE < L := by omega
        have hdroplen : ((x :: rest).drop BUFFER_SIZE).length = L - BUFFER_SIZE := by
          rw [List.length_drop]
        have hdropne : (x :: rest).drop BUFFER_SIZE ≠ [] := by
          intro hq
          have := congrArg List.length hq
          rw [hdroplen] at this
          simp at this
          omega
        have hflen : ((x :: rest).drop BUFFER_SIZE).length ≤ f := by
          rw [hdroplen]
          have hBpos : 0 < BUFFER_SIZE := by decide
          omega
        have hrecne : chunksOfF BUFFER_SIZE f ((x :: rest).drop BUFFER_SIZE) ≠ [] := by
          obtain ⟨y, ys, hys⟩ := List.exists_cons_of_ne_nil hdropne
          cases f with
          | zero => rw [hys] at hflen; simp at hflen
          | succ f' => rw [hys]; exact chunksOfF_ne_nil _ _ _ _
        rw [List.getLastD_cons]
        rw [getLastD_irrel _ hrecne _ []]
        rw [ih _ hdropne hflen, hdroplen]
        have hmod : (L - BUFFER_SIZE) % BUFFER_SIZE = L % BUFFER_SIZE := by
          unfold BUFFER_SIZE at *
          omega
        rw [hmod]

/-! ## Helper lemmas: client traces -/

lemma payloadOf_append (t1 t2 : List Event) :
    payloadOf (t1 ++ t2) = payloadOf t1 ++ payloadOf t2 := by
  unfold payloadOf
  exact List.filterMap_append t1 t2 _

lemma payloadOf_map_chunks (l : List (List Nat)) :
    payloadOf (l.map Event.sendChunk) = l := by
  induction l with
  | nil => rfl
  | cons a rest ih =>
    unfold payloadOf at ih ⊢
    rw [List.map_cons, List.filterMap_cons]
    simp only []
    rw [ih]

lemma payloadOf_trace (hd : List Char) (chunks : List (List Nat)) :
    payloadOf ([Event.connect, Event.sendHeader hd, Event.recvMsg, Event.openLocal]
      ++ chunks.map Event.sendChunk ++ [Event.recvMsg, Event.close]) = chunks := by
  rw [payloadOf_append, payloadOf_append, payloadOf_map_chunks]
  show ([] ++ (chunks ++ [])) = chunks
  simp

lemma payloadOf_trace_cut (hd : List Char) (chunks : List (List Nat)) :
    payloadOf ([Event.connect, Event.sendHeader hd, Event.recvMsg, Event.openLocal]
      ++ chunks.map Event.sendChunk ++ [Event.close]) = chunks := by
  rw [payloadOf_append, payloadOf_append, payloadOf_map_chunks]
  show ([] ++ (chunks ++ [])) = chunks
  simp

lemma getLast?_close (tr : List Event) :
    (tr ++ [Event.recvMsg, Event.close]).getLast? = some Event.close := by
  have hq : tr ++ [Event.recvMsg, Event.close]
      = (tr ++ [Event.recvMsg]) ++ [Event.close] := by simp
  rw [hq]
  exact List.getLast?_concat _

lemma send_file_happy (fp : List Char) (content : List Nat) (conf : List Char) :
    send_file fp ⟨true, some content, READY, conf, none⟩
      = (if conf = SUCCESS then true else false,
         [Event.connect, Event.sendHeader (clientHeader fp content.length),
           Event.recvMsg, Event.openLocal]
           ++ (chunksOf BUFFER_SIZE content).map Event.sendChunk
           ++ [Event.recvMsg, Event.close]) := by
  unfold send_file
  simp

lemma serverSession_good (raw sz : List Char) (k : Int) (body : List Nat)
    (h1 : '<' ∉ raw) (h2 : '<' ∉ sz) (h3 : pyInt sz = some k) :
    serverSession (raw ++ SEPARATOR ++ sz) body
      = ⟨true, some (pyBasename raw), (recvLoop k body).2, (recvLoop k body).1,
          some (if ((recvLoop k body).1 : Int) = k then SUCCESS else FAILED)⟩ := by
  unfold serverSession
  rw [if_neg (header_ne_nil raw sz), decodeHeader_boundary raw sz k h1 h2 h3]

/-! ## The claims -/

/-- Claim C1: for every file content (of any size, with a filename whose
basename avoids the separator characters and fits with the size digits
inside one BUFFER_SIZE header read), running the sender's streaming loop
against the receiver's body-read loop over the reliable stream yields a
receiver-side file byte-for-byte identical to the source, the receiver
sends SUCCESS, and send_file returns True. -/
theorem round_trip (fp : List Char) (content : List Nat)
    (h1 : '<' ∉ pyBasename fp) (h2 : pyBasename fp ≠ [])
    (h3 : (clientHeader fp content.length).length ≤ BUFFER_SIZE) :
    (serverSession (clientHeader fp content.length)
        (payloadOf (send_file fp (happyEnv content)).2).flatten).written = content
    ∧ (serverSession (clientHeader fp content.length)
        (payloadOf (send_file fp (happyEnv content)).2).flatten).bytesReceived
        = content.length
    ∧ (serverSession (clientHeader fp content.length)
        (payloadOf (send_file fp (happyEnv content)).2).flatten).reply = some SUCCESS
    ∧ (send_file fp (happyEnv content)).1 = true := by
  have hsend := send_file_happy fp content SUCCESS
  have hbody : (payloadOf (send_file fp (happyEnv content)).2).flatten = content := by
    show (payloadOf (send_file fp ⟨true, some content, READY, SUCCESS, none⟩).2).flatten
      = content
    rw [hsend]
    show (payloadOf ([Event.connect, Event.sendHeader (clientHeader fp content.length),
      Event.recvMsg, Event.openLocal]
      ++ (chunksOf BUFFER_SIZE content).map Event.sendChunk
      ++ [Event.recvMsg, Event.close])).flatten = content
    rw [payloadOf_trace]
    exact chunksOf_flatten BUFFER_SIZE (by decide) content
  have hserver : serverSession (clientHeader fp content.length)
        (payloadOf (send_file fp (happyEnv content)).2).flatten
      = ⟨true, some (pyBasename fp), content, content.length, some SUCCESS⟩ := by
    rw [hbody]
    unfold clientHeader
    rw [serverSession_good (pyBasename fp) (natDigits content.length) content.length
      content h1 (natDigits_no_lt _) (pyInt_natDigits _)]
    have hrecv : recvLoop ((content.length : Nat) : Int) content
        = (content.length, content) := by
      rw [recvLoop_spec _ (Int.natCast_nonneg _) content]
      simp
    rw [hrecv, pyBasename_pyBasename]
    simp
  rw [hserver]
  refine ⟨rfl, rfl, rfl, ?_⟩
  show (send_file fp ⟨true, some content, READY, SUCCESS, none⟩).1 = true
  rw [hsend]
  simp

/-- Witness for C1 at a five-character filename and a three-byte file. -/
theorem round_trip_witness :
    (serverSession (clientHeader ['a', '.', 't', 'x', 't'] ([7, 8, 9] : List Nat).length)
        (payloadOf (send_file ['a', '.', 't', 'x', 't'] (happyEnv [7, 8, 9])).2).flatten).written
        = [7, 8, 9]
    ∧ (serverSession (clientHeader ['a', '.', 't', 'x', 't'] ([7, 8, 9] : List Nat).length)
        (payloadOf (send_file ['a', '.', 't', 'x', 't'] (happyEnv [7, 8, 9])).2).flatten).bytesReceived
        = ([7, 8, 9] : List Nat).length
    ∧ (serverSession (clientHeader ['a', '.', 't', 'x', 't'] ([7, 8, 9] : List Nat).length)
        (payloadOf (send_file ['a', '.', 't', 'x', 't'] (happyEnv [7, 8, 9])).2).flatten).reply
        = some SUCCESS
    ∧ (send_file ['a', '.', 't', 'x', 't'] (happyEnv [7, 8, 9])).1 = true :=
  round_trip ['a', '.', 't', 'x', 't'] [7, 8, 9] (by decide) (by decide) (by decide)

/-- Claim C2, amended: the receiver's decode splits on every occurrence
of the separator and succeeds exactly when the occurrence count is one
and the size field parses under Python int semantics (Unicode decimal
digits, surrounding Unicode whitespace, optional ASCII sign, underscore
digit grouping), so negative and non-ASCII sizes are accepted; on
failure the connection is aborted with no READY and no reply. -/
theorem header_decode_fail_iff (h : List Char) (body : List Nat) :
    (decodeHeader h = none
      ↔ countOccs SEPARATOR h ≠ 1
        ∨ pyInt ((pySplit SEPARATOR h).getLastD []) = none)
    ∧ (decodeHeader h = none →
        (serverSession h body).sentReady = false ∧ (serverSession h body).reply = none) := by
  constructor
  · have hlen := pySplit_length_eq SEPARATOR h
    unfold decodeHeader
    cases hsp : pySplit SEPARATOR h with
    | nil =>
      rw [hsp] at hlen
      simp at hlen
    | cons a tl =>
      cases tl with
      | nil =>
        rw [hsp] at hlen
        simp at hlen
        simp
        left
        omega
      | cons b tl2 =>
        cases tl2 with
        | nil =>
          rw [hsp] at hlen
          simp at hlen
          cases hpi : pyInt b with
          | none => simp [hpi]
          | some k => simp [hpi, ← hlen]
        | cons c tl3 =>
          rw [hsp] at hlen
          simp at hlen
          simp
          omega
  · intro hd
    unfold serverSession
    by_cases hnil : h = []
    · rw [if_pos hnil]
      exact ⟨rfl, rfl⟩
    · rw [if_neg hnil, hd]
      exact ⟨rfl, rfl⟩

/-- Witness for C2 at a header without any separator. -/
theorem header_decode_fail_iff_witness :
    (decodeHeader ['x'] = none
      ↔ countOccs SEPARATOR ['x'] ≠ 1
        ∨ pyInt ((pySplit SEPARATOR ['x']).getLastD []) = none)
    ∧ (decodeHeader ['x'] = none →
        (serverSession ['x'] []).sentReady = false
        ∧ (serverSession ['x'] []).reply = none) :=
  header_decode_fail_iff ['x'] []

/-- Counterexample for C2 as stated: the header with size field -5 has
exactly one separator occurrence and a size field that is not a valid
non-negative decimal integer, so the claim requires decoding to fail;
the code parses it successfully with fileSize -5.  Likewise the
Arabic-Indic digit five, not a decimal-digit string, parses to 5. -/
theorem header_decode_cex :
    decodeHeader (['n'] ++ SEPARATOR ++ ['-', '5']) = some (['n'], (-5 : Int))
    ∧ specNonNegDecimal ['-', '5'] = false
    ∧ countOccs SEPARATOR (['n'] ++ SEPARATOR ++ ['-', '5']) = 1
    ∧ decodeHeader (['n'] ++ SEPARATOR ++ ['٥']) = some (['n'], (5 : Int))
    ∧ specNonNegDecimal ['٥'] = false := by
  decide

/-- Claim C3: a path failing the existing-readable-regular-file checks
of the main loop is rejected before send_file is invoked, so no network
activity happens at all: the event trace of that loop iteration is
empty, contains no connect and no payload write, and the iteration
reports failure. -/
theorem file_check_before_network (fs : FileSys) (env : ClientEnv) (p : List Char)
    (h : fs.isRegularFile p = false ∨ fs.readOK p = false) :
    (clientMainStep fs env p).2 = []
    ∧ Event.connect ∉ (clientMainStep fs env p).2
    ∧ payloadOf (clientMainStep fs env p).2 = []
    ∧ (clientMainStep fs env p).1 = false := by
  have htr : clientMainStep fs env p = (false, []) := by
    unfold clientMainStep
    rcases h with h | h
    · rw [if_pos h]
    · by_cases h1 : fs.isRegularFile p = false
      · rw [if_pos h1]
      · rw [if_neg h1, if_pos h]
  rw [htr]
  exact ⟨rfl, List.not_mem_nil _, rfl, rfl⟩

/-- Witness for C3 at a filesystem with no readable regular files. -/
theorem file_check_before_network_witness :
    (clientMainStep ⟨fun _ => false, fun _ => false⟩ (happyEnv []) ['a']).2 = []
    ∧ Event.connect ∉ (clientMainStep ⟨fun _ => false, fun _ => false⟩ (happyEnv []) ['a']).2
    ∧ payloadOf (clientMainStep ⟨fun _ => false, fun _ => false⟩ (happyEnv []) ['a']).2 = []
    ∧ (clientMainStep ⟨fun _ => false, fun _ => false⟩ (happyEnv []) ['a']).1 = false :=
  file_check_before_network ⟨fun _ => false, fun _ => false⟩ (happyEnv []) ['a'] (Or.inl rfl)

/-- Claim C4: whenever the handshake response differs from READY (under
any connect or file outcome), send_file returns False, writes zero
payload chunks to the connection, and never opens the local file for
streaming. -/
theorem bad_handshake (fp : List Char) (env : ClientEnv) (h : env.response ≠ READY) :
    (send_file fp env).1 = false
    ∧ payloadOf (send_file fp env).2 = []
    ∧ openedLocal (send_file fp env).2 = false := by
  unfold send_file
  by_cases hc : env.connectOk = false
  · rw [if_pos hc]
    exact ⟨rfl, rfl, rfl⟩
  · rw [if_neg hc]
    cases hb : env.fileBytes with
    | none => exact ⟨rfl, rfl, rfl⟩
    | some bytes =>
      dsimp only
      rw [if_pos h]
      exact ⟨rfl, rfl, rfl⟩

/-- Witness for C4 at the response NO. -/
theorem bad_handshake_witness :
    (send_file ['a'] ⟨true, some [1, 2], ['N', 'O'], SUCCESS, none⟩).1 = false
    ∧ payloadOf (send_file ['a'] ⟨true, some [1, 2], ['N', 'O'], SUCCESS, none⟩).2 = []
    ∧ openedLocal (send_file ['a'] ⟨true, some [1, 2], ['N', 'O'], SUCCESS, none⟩).2 = false :=
  bad_handshake ['a'] ⟨true, some [1, 2], ['N', 'O'], SUCCESS, none⟩ (by decide)

/-- Claim C5: when the stream closes after delivering fewer bytes than
the advertised size, the body-read loop terminates (it is a total
function and its value is computed here), leaves bytesReceived below
fileSize, replies FAILED, and keeps the partially written output file:
its name stays registered and its content is exactly the delivered
prefix, with no deletion. -/
theorem premature_disconnect (raw sz : List Char) (k : Int) (body : List Nat)
    (h1 : '<' ∉ raw) (h2 : '<' ∉ sz) (h3 : pyInt sz = some k)
    (h4 : (body.length : Int) < k) :
    (serverSession (raw ++ SEPARATOR ++ sz) body).bytesReceived = body.length
    ∧ (((serverSession (raw ++ SEPARATOR ++ sz) body).bytesReceived : Int) < k)
    ∧ (serverSession (raw ++ SEPARATOR ++ sz) body).reply = some FAILED
    ∧ (serverSession (raw ++ SEPARATOR ++ sz) body).savedName = some (pyBasename raw)
    ∧ (serverSession (raw ++ SEPARATOR ++ sz) body).written = body := by
  have hk0 : (0 : Int) ≤ k := le_trans (Int.natCast_nonneg _) (le_of_lt h4)
  have hrecv : recvLoop k body = (body.length, body) := by
    rw [recvLoop_spec k hk0 body]
    have hlen : body.length ≤ k.toNat := by omega
    rw [min_eq_left hlen, List.take_of_length_le hlen]
  have hserver : serverSession (raw ++ SEPARATOR ++ sz) body
      = ⟨true, some (pyBasename raw), body, body.length, some FAILED⟩ := by
    rw [serverSession_good raw sz k body h1 h2 h3, hrecv]
    have hne : ¬((body.length : Int) = k) := by omega
    simp [hne]
  rw [hserver]
  exact ⟨rfl, h4, rfl, rfl, rfl⟩

/-- Witness for C5: nine advertised bytes, three delivered. -/
theorem premature_disconnect_witness :
    (serverSession (['a'] ++ SEPARATOR ++ ['9']) [1, 2, 3]).bytesReceived
        = ([1, 2, 3] : List Nat).length
    ∧ (((serverSession (['a'] ++ SEPARATOR ++ ['9']) [1, 2, 3]).bytesReceived : Int) < 9)
    ∧ (serverSession (['a'] ++ SEPARATOR ++ ['9']) [1, 2, 3]).reply = some FAILED
    ∧ (serverSession (['a'] ++ SEPARATOR ++ ['9']) [1, 2, 3]).savedName
        = some (pyBasename ['a'])
    ∧ (serverSession (['a'] ++ SEPARATOR ++ ['9']) [1, 2, 3]).written = [1, 2, 3] :=
  premature_disconnect ['a'] ['9'] 9 [1, 2, 3] (by decide) (by decide) (by decide) (by decide)

/-- Claim C6: over any file content and chunk size BUFFER_SIZE = 1024,
the streaming loop performs exactly ceil(n / c) payload writes (here
written (n + (c - 1)) / c in natural division), no write exceeds c
bytes, the lengths of the writes sum to n (bytesSent = n after the
loop), and for a non-empty file the final write has n mod c bytes, or c
when c divides n. -/
theorem chunking_deterministic (fp : List Char) (content : List Nat) (conf : List Char) :
    (payloadOf (send_file fp ⟨true, some content, READY, conf, none⟩).2).length
        = (content.length + (BUFFER_SIZE - 1)) / BUFFER_SIZE
    ∧ (∀ ch ∈ payloadOf (send_file fp ⟨true, some content, READY, conf, none⟩).2,
        ch.length ≤ BUFFER_SIZE)
    ∧ ((payloadOf (send_file fp ⟨true, some content, READY, conf, none⟩).2).map
        List.length).sum = content.length
    ∧ (content ≠ [] →
        ((payloadOf (send_file fp ⟨true, some content, READY, conf, none⟩).2).getLastD
            []).length
          = if content.length % BUFFER_SIZE = 0 then BUFFER_SIZE
            else content.length % BUFFER_SIZE) := by
  have hpay : payloadOf (send_file fp ⟨true, some content, READY, conf, none⟩).2
      = chunksOf BUFFER_SIZE content := by
    rw [send_file_happy fp content conf]
    exact payloadOf_trace _ _
  rw [hpay]
  refine ⟨?_, ?_, ?_, ?_⟩
  · exact chunksOfF_length_eq content.length content (le_refl _)
  · exact chunksOfF_mem_length BUFFER_SIZE content.length content
  · have := congrArg List.length (chunksOf_flatten BUFFER_SIZE (by decide) content)
    rw [List.length_flatten] at this
    exact this
  · intro hne
    exact chunksOfF_last content.length content hne (le_refl _)

/-- Witness for C6 at a three-byte file. -/
theorem chunking_deterministic_witness :
    (payloadOf (send_file ['a'] ⟨true, some [5, 6, 7], READY, [], none⟩).2).length
        = (([5, 6, 7] : List Nat).length + (BUFFER_SIZE - 1)) / BUFFER_SIZE
    ∧ (∀ ch ∈ payloadOf (send_file ['a'] ⟨true, some [5, 6, 7], READY, [], none⟩).2,
        ch.length ≤ BUFFER_SIZE)
    ∧ ((payloadOf (send_file ['a'] ⟨true, some [5, 6, 7], READY, [], none⟩).2).map
        List.length).sum = ([5, 6, 7] : List Nat).length
    ∧ (([5, 6, 7] : List Nat) ≠ [] →
        ((payloadOf (send_file ['a'] ⟨true, some [5, 6, 7], READY, [], none⟩).2).getLastD
            []).length
          = if ([5, 6, 7] : List Nat).length % BUFFER_SIZE = 0 then BUFFER_SIZE
            else ([5, 6, 7] : List Nat).length % BUFFER_SIZE) :=
  chunking_deterministic ['a'] [5, 6, 7] []

/-- Claim C7: a zero-byte file transfers with zero payload chunks and
zero chunk-progress events (one event per chunk write), the receiver's
body loop runs zero iterations leaving zero bytes received and an empty
file, the receiver immediately replies SUCCESS, and send_file returns
True. -/
theorem zero_length_file (fp : List Char)
    (h1 : '<' ∉ pyBasename fp) (h2 : pyBasename fp ≠ []) :
    payloadOf (send_file fp (happyEnv [])).2 = []
    ∧ (serverSession (clientHeader fp 0)
        (payloadOf (send_file fp (happyEnv [])).2).flatten).bytesReceived = 0
    ∧ (serverSession (clientHeader fp 0)
        (payloadOf (send_file fp (happyEnv [])).2).flatten).written = []
    ∧ (serverSession (clientHeader fp 0)
        (payloadOf (send_file fp (happyEnv [])).2).flatten).reply = some SUCCESS
    ∧ (send_file fp (happyEnv [])).1 = true := by
  have hsend := send_file_happy fp [] SUCCESS
  have hpay : payloadOf (send_file fp (happyEnv [])).2 = [] := by
    show payloadOf (send_file fp ⟨true, some [], READY, SUCCESS, none⟩).2 = []
    rw [hsend]
    exact payloadOf_trace _ _
  have hserver : serverSession (clientHeader fp 0)
        (payloadOf (send_file fp (happyEnv [])).2).flatten
      = ⟨true, some (pyBasename fp), [], 0, some SUCCESS⟩ := by
    rw [hpay]
    simp only [List.flatten_nil]
    unfold clientHeader
    rw [serverSession_good (pyBasename fp) (natDigits 0) 0 [] h1
      (natDigits_no_lt 0) (pyInt_natDigits 0)]
    have hrecv : recvLoop (0 : Int) ([] : List Nat) = (0, []) := by
      rw [recvLoop_spec _ (by omega) _]
      simp
    rw [hrecv, pyBasename_pyBasename]
    simp
  refine ⟨hpay, ?_, ?_, ?_, ?_⟩
  · rw [hserver]
  · rw [hserver]
  · rw [hserver]
  · show (send_file fp ⟨true, some [], READY, SUCCESS, none⟩).1 = true
    rw [hsend]
    simp

/-- Witness for C7 at a concrete filename. -/
theorem zero_length_file_witness :
    payloadOf (send_file ['f'] (happyEnv [])).2 = []
    ∧ (serverSession (clientHeader ['f'] 0)
        (payloadOf (send_file ['f'] (happyEnv [])).2).flatten).bytesReceived = 0
    ∧ (serverSession (clientHeader ['f'] 0)
        (payloadOf (send_file ['f'] (happyEnv [])).2).flatten).written = []
    ∧ (serverSession (clientHeader ['f'] 0)
        (payloadOf (send_file ['f'] (happyEnv [])).2).flatten).reply = some SUCCESS
    ∧ (send_file ['f'] (happyEnv [])).1 = true :=
  zero_length_file ['f'] (by decide) (by decide)

/-- Claim C8: any decoded fileName is stored under only its final path
component: the receiver saves under the basename of the raw wire name,
and that stored name contains no path-separator character, so no
directory outside the working directory is created or traversed. -/
theorem basename_stripped (raw sz : List Char) (k : Int) (body : List Nat)
    (h1 : '<' ∉ raw) (h2 : '<' ∉ sz) (h3 : pyInt sz = some k) :
    (serverSession (raw ++ SEPARATOR ++ sz) body).savedName = some (pyBasename raw)
    ∧ '/' ∉ pyBasename raw := by
  rw [serverSession_good raw sz k body h1 h2 h3]
  exact ⟨rfl, slash_not_mem_pyBasename raw⟩

/-- Witness for C8 at the wire name a/b. -/
theorem basename_stripped_witness :
    (serverSession ((['a', '/', 'b'] : List Char) ++ SEPARATOR ++ ['7']) []).savedName
        = some (pyBasename ['a', '/', 'b'])
    ∧ '/' ∉ pyBasename (['a', '/', 'b'] : List Char) :=
  basename_stripped ['a', '/', 'b'] ['7'] 7 [] (by decide) (by decide) (by decide)

/-- Claim C9: from any loop state with bytesReceived at most fileSize,
the body-read loop keeps bytesReceived at most fileSize (it reads only
min(chunkSize, fileSize - bytesReceived) bytes at a time, so it never
writes payload beyond fileSize), and it exits with bytesReceived equal
to fileSize exactly when the stream delivers the outstanding bytes. -/
theorem receiver_byte_invariant (size : Int) (fuel br : Nat) (data acc : List Nat)
    (hbr : (br : Int) ≤ size) (hfuel : data.length < fuel) :
    recvLoopF size fuel br data acc
      = (br + min data.length (size - (br : Int)).toNat,
         acc ++ data.take (size - (br : Int)).toNat)
    ∧ (((recvLoopF size fuel br data acc).1 : Int) ≤ size)
    ∧ (((recvLoopF size fuel br data acc).1 : Int) = size
        ↔ (size - (br : Int)).toNat ≤ data.length) := by
  have h := recvLoopF_spec size fuel br data acc hfuel hbr
  refine ⟨h, ?_, ?_⟩
  · rw [h]
    push_cast
    omega
  · rw [h]
    constructor
    · intro hq
      push_cast at hq
      omega
    · intro hq
      push_cast
      omega

/-- Witness for C9 at size five, one byte already received, three more
delivered. -/
theorem receiver_byte_invariant_witness :
    (recvLoopF 5 4 1 [1, 2, 3] []
      = (1 + min ([1, 2, 3] : List Nat).length ((5 - ((1 : Nat) : Int)).toNat),
         [] ++ ([1, 2, 3] : List Nat).take ((5 - ((1 : Nat) : Int)).toNat))
    ∧ (((recvLoopF 5 4 1 [1, 2, 3] []).1 : Int) ≤ 5)
    ∧ (((recvLoopF 5 4 1 [1, 2, 3] []).1 : Int) = 5
        ↔ (5 - ((1 : Nat) : Int)).toNat ≤ ([1, 2, 3] : List Nat).length)) :=
  receiver_byte_invariant 5 4 1 [1, 2, 3] [] (by decide) (by decide)

/-- Claim C10: send_file is total over every modelled environment
(connection refusal, missing or unreadable file, bad handshake,
mid-transfer I/O failure at any chunk, any confirmation): it returns a
Boolean rather than propagating an exception, and the finally block
closes the socket on every return path, so every trace ends with the
close event. -/
theorem send_file_totality (fp : List Char) (env : ClientEnv) :
    ((send_file fp env).1 = true ∨ (send_file fp env).1 = false)
    ∧ ((send_file fp env).2).getLast? = some Event.close := by
  constructor
  · cases hq : (send_file fp env).1
    · right; rfl
    · left; rfl
  · unfold send_file
    by_cases hc : env.connectOk = false
    · rw [if_pos hc]
      rfl
    · rw [if_neg hc]
      cases hb : env.fileBytes with
      | none => rfl
      | some bytes =>
        dsimp only
        by_cases hr : env.response ≠ READY
        · rw [if_pos hr]
          rfl
        · rw [if_neg hr]
          cases hio : env.ioFailAt with
          | none => exact getLast?_close _
          | some k =>
            dsimp only
            by_cases hk : k < (chunksOf BUFFER_SIZE bytes).length
            · rw [if_pos hk]
              exact List.getLast?_concat _
            · rw [if_neg hk]
              exact getLast?_close _

end FileTransfer
